import Mathlib

/-!
Verification of the reqx HTTP client library (Go).

This file shallowly embeds the retry engine, the OAuth1 signature
construction, the streaming multipart encoder and the request-builder
map-sharing behaviour, and proves or refutes the frozen claims about them.

Conventions of the embedding:
* Go byte slices and streams are modelled as lists of byte values
  (List Nat, each entry below 256).
* Go errors are modelled by an inductive classification that mirrors the
  checks the source performs (net.Error.Timeout, *net.DNSError, other).
* A Go function returning (value, error) becomes a pair of options.
* Go maps are modelled as association lists with unique keys; where a map
  is mutated through a shared reference, an explicit heap of maps is used.
-/

/-! ## Retry engine (shouldRetry / executeWithRetry) -/

/-- Classification of a Go transport error, as far as shouldRetry
inspects it: a net.Error whose Timeout() is true, a *net.DNSError, or
any other error (other network failures, URL parse errors, body errors). -/
inductive GoError where
  | netTimeout
  | dns
  | otherNet
  deriving DecidableEq, Repr

/-- The Response struct from types.go: status code, body bytes, headers,
and an optional body stream (DoStream leaves the body as a reader). -/
structure Response where
  status : Nat
  body : List Nat := []
  headers : List (String × String) := []
  bodyReader : Option (List Nat) := none
  deriving DecidableEq, Repr

/-- shouldRetry from the retry source file: with a non-nil error, retry
exactly when the error is a timeout net.Error or a *net.DNSError; with a
nil error, retry exactly when the status code is at least 500 (internal
server error) or equals 429 (too many requests). -/
def shouldRetry (err : Option GoError) (statusCode : Nat) : Bool :=
  match err with
  | some e =>
    if e = GoError.netTimeout then true
    else e = GoError.dns
  | none => decide (500 ≤ statusCode) || statusCode == 429

/-- The error returned by executeWithRetry: either an error produced by an
attempt, or the synthesized ErrMaxRetriesExceeded sentinel from errors.go. -/
inductive RetryError where
  | attemptErr (e : GoError)
  | maxRetriesExceeded
  deriving DecidableEq, Repr

/-- Observable outcome of one run of executeWithRetry: the returned
response and error, the number of invocations of the attempt closure, and
the backoff durations slept (in milliseconds), in order. -/
structure RetryResult where
  resp : Option Response
  err : Option RetryError
  attempts : Nat
  sleepsMs : List Int
  deriving DecidableEq, Repr

/-- The code after the retry loop: return lastErr if it is non-nil,
otherwise synthesize ErrMaxRetriesExceeded. -/
def finishRetry (lastResp : Option Response) (lastErr : Option GoError)
    (attempts : Nat) (sleeps : List Int) : RetryResult :=
  match lastErr with
  | some e =>
    { resp := lastResp, err := some (RetryError.attemptErr e),
      attempts := attempts, sleepsMs := sleeps }
  | none =>
    { resp := lastResp, err := some RetryError.maxRetriesExceeded,
      attempts := attempts, sleepsMs := sleeps }

/-- Status read performed by the success check. The Go code dereferences
resp only when err is nil; a nil response there would panic, so theorems
that depend on this branch assume the attempt contract
(err = none implies resp is non-nil). -/
def respStatus : Option Response → Nat
  | some r => r.status
  | none => 0

/-- One-for-one translation of the retry loop body. fuel bounds the
number of remaining iterations; the wrapper passes enough fuel that the
fuel-exhausted branch is unreachable. The attempt closure is indexed by
the attempt counter to model successive invocations. -/
def executeWithRetryAux (maxRetries backoffMs : Int)
    (fn : Nat → Option Response × Option GoError)
    (fuel : Nat) (attempt : Nat)
    (lastResp : Option Response) (lastErr : Option GoError)
    (attempts : Nat) (sleeps : List Int) : RetryResult :=
  match fuel with
  | 0 => finishRetry lastResp lastErr attempts sleeps
  | Nat.succ fuel1 =>
    if (attempt : Int) ≤ maxRetries then
      let r := fn attempt
      let resp := r.1
      let err := r.2
      if err = none ∧ shouldRetry none (respStatus resp) = false then
        { resp := resp, err := none, attempts := attempts + 1, sleepsMs := sleeps }
      else
        if (attempt : Int) = maxRetries then
          finishRetry resp err (attempts + 1) sleeps
        else
          let sr := shouldRetry err 0
          let sr2 := if resp ≠ none then sr || shouldRetry none (respStatus resp) else sr
          if sr2 = false then
            finishRetry resp err (attempts + 1) sleeps
          else
            executeWithRetryAux maxRetries backoffMs fn fuel1 (attempt + 1)
              resp err (attempts + 1) (sleeps ++ [backoffMs * ((attempt : Int) + 1)])
    else
      finishRetry lastResp lastErr attempts sleeps

/-- executeWithRetry from the retry source file, with the sleep calls
recorded in the trace instead of performed. -/
def executeWithRetry (maxRetries backoffMs : Int)
    (fn : Nat → Option Response × Option GoError) : RetryResult :=
  executeWithRetryAux maxRetries backoffMs fn (maxRetries + 1).toNat 0 none none 0 []

/-! ## Byte-level string helpers (Go []byte(s), sort.Strings, url.QueryEscape) -/

/-- UTF-8 encoding of one character, the byte sequence Go produces for it. -/
def utf8EncodeChar (c : Char) : List Nat :=
  let n := c.toNat
  if n < 128 then [n]
  else if n < 2048 then [192 + n / 64, 128 + n % 64]
  else if n < 65536 then [224 + n / 4096, 128 + (n / 64) % 64, 128 + n % 64]
  else [240 + n / 262144, 128 + (n / 4096) % 64, 128 + (n / 64) % 64, 128 + n % 64]

/-- The bytes of a string, as Go sees it: the UTF-8 encoding. -/
def utf8Bytes (s : String) : List Nat := s.data.flatMap utf8EncodeChar

/-- Lexicographic strict order on byte sequences, the comparison Go uses
for strings. -/
def bytesLtB : List Nat → List Nat → Bool
  | [], [] => false
  | [], _ :: _ => true
  | _ :: _, [] => false
  | a :: as, b :: bs => if a < b then true else if b < a then false else bytesLtB as bs

/-- Go string comparison s < t (byte-wise lexicographic). -/
def stringLtGo (s t : String) : Bool := bytesLtB (utf8Bytes s) (utf8Bytes t)

/-- Go string comparison s <= t, the order sort.Strings sorts by. -/
def stringLeGo (s t : String) : Prop := stringLtGo t s = false

instance (s t : String) : Decidable (stringLeGo s t) :=
  inferInstanceAs (Decidable (stringLtGo t s = false))

/-- Uppercase hexadecimal digit, as used by Go percent-encoding. -/
def hexDigitUpper (n : Nat) : Char :=
  if n < 10 then Char.ofNat (48 + n) else Char.ofNat (55 + n)

/-- Whether a byte is left unescaped by url.QueryEscape: ASCII letters,
digits, and the marks - _ . ~ . -/
def unreservedByte (b : Nat) : Bool :=
  (65 ≤ b && b ≤ 90) || (97 ≤ b && b ≤ 122) || (48 ≤ b && b ≤ 57) ||
    b == 45 || b == 95 || b == 46 || b == 126

/-- Escaping of one byte by url.QueryEscape: unreserved bytes pass
through, a space becomes a plus sign, everything else becomes a
percent-escape with uppercase hex digits. -/
def escapeByte (b : Nat) : List Char :=
  if unreservedByte b then [Char.ofNat b]
  else if b == 32 then ['+']
  else ['%', hexDigitUpper (b / 16), hexDigitUpper (b % 16)]

/-- url.QueryEscape from net/url, applied byte-wise to the UTF-8 bytes. -/
def queryEscape (s : String) : String :=
  String.mk ((utf8Bytes s).flatMap escapeByte)

/-- The standard base64 alphabet used by base64.StdEncoding. -/
def base64Table : List Char :=
  "ABCDEFGHIJKLMNOPQRSTUVWXYZabcdefghijklmnopqrstuvwxyz0123456789+/".data

/-- Character for a 6-bit group. -/
def base64Char (n : Nat) : Char := base64Table.getD n 'A'

/-- base64.StdEncoding.EncodeToString over byte lists, with padding. -/
def base64Encode : List Nat → List Char
  | [] => []
  | [b1] => [base64Char (b1 / 4), base64Char (b1 % 4 * 16), '=', '=']
  | [b1, b2] =>
    [base64Char (b1 / 4), base64Char (b1 % 4 * 16 + b2 / 16),
     base64Char (b2 % 16 * 4), '=']
  | b1 :: b2 :: b3 :: rest =>
    [base64Char (b1 / 4), base64Char (b1 % 4 * 16 + b2 / 16),
     base64Char (b2 % 16 * 4 + b3 / 64), base64Char (b3 % 64)] ++ base64Encode rest

/-! ## Go map model (association lists with unique keys) -/

/-- Assignment m[k] = v on a Go map modelled as an association list:
replace the value if the key is present, append a new entry otherwise. -/
def mapInsert (m : List (String × String)) (k v : String) : List (String × String) :=
  if m.any (fun p => p.1 == k) then
    m.map (fun p => if p.1 == k then (k, v) else p)
  else m ++ [(k, v)]

/-- Lookup m[k] on the association-list map model. -/
def lookupParam (m : List (String × String)) (k : String) : Option String :=
  (m.find? (fun p => p.1 == k)).map Prod.snd

/-- Lookup with the zero value for missing keys (Go map indexing). -/
def lookupParamD (m : List (String × String)) (k : String) : String :=
  (lookupParam m k).getD ""

/-- The allParams construction in generateOAuth1Signature: copy the base
map, then assign every extra entry over it (last write wins on a key
collision). -/
def mergeParams (base extra : List (String × String)) : List (String × String) :=
  extra.foldl (fun m p => mapInsert m p.1 p.2) base

/-! ## OAuth1 signature engine (oauth1.go) -/

/-- OAuth1Config from types.go. -/
structure OAuth1Config where
  consumerKey : String
  consumerSecret : String
  accessToken : String
  accessTokenSecret : String
  deriving DecidableEq, Repr

/-- Result of url.Parse as generateOAuth1Signature consumes it: scheme,
host, path, and the query parameters (u.Query() with the first value of
each key, as the source reads values[0]). -/
structure ParsedURL where
  scheme : String
  host : String
  path : String
  query : List (String × String)
  deriving DecidableEq, Repr

/-- Comparison of map entries by key, with Go byte order on strings. -/
def keyLeGo (a b : String × String) : Prop := stringLeGo a.1 b.1

instance (a b : String × String) : Decidable (keyLeGo a b) :=
  inferInstanceAs (Decidable (stringLeGo a.1 b.1))

/-- The parameter-string construction in generateOAuth1Signature: collect
the map keys, sort them (sort.Strings), then render each key=value pair
percent-encoded and join with ampersands. sort.Strings is modelled by
insertionSort over the Go byte order; on the unique keys of a map both
produce the one sorted arrangement. -/
def paramString (allParams : List (String × String)) : String :=
  let keys := List.insertionSort stringLeGo (allParams.map Prod.fst)
  String.intercalate "&"
    (keys.map (fun k => queryEscape k ++ "=" ++ queryEscape (lookupParamD allParams k)))

/-- Modelled from the words of the spec, for comparison with paramString:
percent-encode every key and value, form the key=value pairs, sort the
pairs lexicographically by their encoded string form, join with
ampersands. -/
def paramStringSpec (allParams : List (String × String)) : String :=
  String.intercalate "&"
    (List.insertionSort stringLeGo
      (allParams.map (fun p => queryEscape p.1 ++ "=" ++ queryEscape p.2)))

/-- The oauth parameter set assembled by generateOAuth1Header, with the
entropy inputs (nonce, timestamp) lifted to arguments. -/
def oauthParamList (oauth : OAuth1Config) (nonce timestamp : String) :
    List (String × String) :=
  [("oauth_consumer_key", oauth.consumerKey),
   ("oauth_nonce", nonce),
   ("oauth_signature_method", "HMAC-SHA1"),
   ("oauth_timestamp", timestamp),
   ("oauth_token", oauth.accessToken),
   ("oauth_version", "1.0")]

/-- generateOAuth1Signature from oauth1.go. The already-parsed URL stands
for url.Parse on the success path, and the HMAC-SHA1 primitive from
crypto/hmac is an explicit function argument (key, then message). -/
def generateOAuth1Signature (hmacSha1 : List Nat → List Nat → List Nat)
    (oauth : OAuth1Config) (method : String) (u : ParsedURL)
    (params : List (String × String)) : String :=
  let baseURL := u.scheme ++ "://" ++ u.host ++ u.path
  let allParams := mergeParams params u.query
  let paramStr := paramString allParams
  let signatureBaseString :=
    queryEscape method ++ "&" ++ queryEscape baseURL ++ "&" ++ queryEscape paramStr
  let signingKey :=
    queryEscape oauth.consumerSecret ++ "&" ++ queryEscape oauth.accessTokenSecret
  String.mk (base64Encode (hmacSha1 (utf8Bytes signingKey) (utf8Bytes signatureBaseString)))

/-! ## Multipart encoder (multipart.go, mime/multipart writer) -/

/-- FormField from types.go. -/
structure FormField where
  name : String
  value : String
  deriving DecidableEq, Repr

/-- FormFile from types.go: the in-memory buffer and the reader stream
are both optional and nothing enforces mutual exclusion. A reader is
modelled by the byte sequence it yields. -/
structure FormFile where
  fieldName : String
  fileName : String
  data : Option (List Nat)
  reader : Option (List Nat)
  deriving DecidableEq, Repr

/-- MultipartFormData from types.go. -/
structure MultipartFormData where
  fields : List FormField
  files : List FormFile
  deriving DecidableEq, Repr

/-- escapeQuotes from mime/multipart: backslashes and double quotes in
part names are escaped with a backslash. -/
def escapeQuotes (s : String) : String :=
  String.mk (s.data.flatMap (fun c =>
    if c = '\\' then ['\\', '\\']
    else if c = '"' then ['\\', '"']
    else [c]))

/-- The Content-Disposition header line of a field part
(CreateFormField). -/
def contentDispositionField (name : String) : String :=
  "Content-Disposition: form-data; name=\"" ++ escapeQuotes name ++ "\""

/-- The Content-Disposition header line of a file part
(CreateFormFile). -/
def contentDispositionFile (fieldName fileName : String) : String :=
  "Content-Disposition: form-data; name=\"" ++ escapeQuotes fieldName ++
    "\"; filename=\"" ++ escapeQuotes fileName ++ "\""

/-- The body bytes the writer goroutine copies for one file entry: the
reader when it is non-nil, otherwise the data buffer when it is non-nil,
otherwise nothing. -/
def fileBody (f : FormFile) : List Nat :=
  match f.reader with
  | some r => r
  | none =>
    match f.data with
    | some d => d
    | none => []

/-- State of a mime/multipart writer: the bytes emitted so far and
whether a part has been opened (the lastpart field, which decides whether
a new part is preceded by a closing CRLF). -/
structure MWriter where
  out : List Nat
  hasLast : Bool
  deriving DecidableEq, Repr

/-- CreatePart: close the previous part if any, write the dash-boundary
line, the header lines (already in the sorted order Go emits), and the
blank line. -/
def wCreatePart (boundary : String) (headerLines : List String) (w : MWriter) : MWriter :=
  let pre :=
    if w.hasLast then utf8Bytes ("\r\n--" ++ boundary ++ "\r\n")
    else utf8Bytes ("--" ++ boundary ++ "\r\n")
  let hdr := headerLines.flatMap (fun h => utf8Bytes (h ++ "\r\n"))
  { out := w.out ++ pre ++ hdr ++ utf8Bytes "\r\n", hasLast := true }

/-- A write of body bytes into the current part. -/
def wWrite (bytes : List Nat) (w : MWriter) : MWriter :=
  { w with out := w.out ++ bytes }

/-- Writer.Close: the closing dash-boundary line. -/
def wClose (boundary : String) (w : MWriter) : MWriter :=
  { w with out := w.out ++ utf8Bytes ("\r\n--" ++ boundary ++ "--\r\n") }

/-- The writer goroutine of buildMultipartForm on its error-free path:
WriteField for every field in order, then CreateFormFile plus body copy
for every file in order, then Close. The boundary is the token the writer
was created with. Returns the full byte stream the pipe reader yields. -/
def buildMultipartForm (boundary : String) (formData : MultipartFormData) : List Nat :=
  let w0 : MWriter := { out := [], hasLast := false }
  let w1 := formData.fields.foldl
    (fun w f => wWrite (utf8Bytes f.value)
      (wCreatePart boundary [contentDispositionField f.name] w)) w0
  let w2 := formData.files.foldl
    (fun w f => wWrite (fileBody f)
      (wCreatePart boundary
        [contentDispositionFile f.fieldName f.fileName,
         "Content-Type: application/octet-stream"] w)) w1
  (wClose boundary w2).out

/-- The rendered block of one field part, without surrounding part
separators. -/
def fieldBlock (boundary : String) (f : FormField) : List Nat :=
  utf8Bytes ("--" ++ boundary ++ "\r\n") ++
  utf8Bytes (contentDispositionField f.name ++ "\r\n") ++
  utf8Bytes "\r\n" ++ utf8Bytes f.value

/-- The rendered block of one file part, without surrounding part
separators. -/
def fileBlock (boundary : String) (f : FormFile) : List Nat :=
  utf8Bytes ("--" ++ boundary ++ "\r\n") ++
  utf8Bytes (contentDispositionFile f.fieldName f.fileName ++ "\r\n") ++
  utf8Bytes ("Content-Type: application/octet-stream" ++ "\r\n") ++
  utf8Bytes "\r\n" ++ fileBody f

/-- Concatenation of part blocks with the closing CRLF each part gets
when the next one begins: the first block is written bare unless a part
is already open, every later block is preceded by CRLF. -/
def glueBlocks (alreadyOpen : Bool) : List (List Nat) → List Nat
  | [] => []
  | b :: rest => (if alreadyOpen then [13, 10] else []) ++ b ++ glueBlocks true rest

/-! ## Multipart decoding (a standard multipart parser, for round-trips) -/

/-- Split a byte list at the first occurrence of a delimiter, returning
the bytes before it and the bytes after it. -/
def splitFirst (delim : List Nat) : List Nat → Option (List Nat × List Nat)
  | [] => if delim = [] then some ([], []) else none
  | c :: rest =>
    if delim.isPrefixOf (c :: rest) then some ([], (c :: rest).drop delim.length)
    else
      match splitFirst delim rest with
      | some (pre, post) => some (c :: pre, post)
      | none => none

/-- Split a byte list at every occurrence of a delimiter, with fuel for
termination; the caller passes fuel larger than the list length. -/
def splitAllAux (delim : List Nat) : Nat → List Nat → List (List Nat)
  | 0, s => [s]
  | Nat.succ fuel, s =>
    match splitFirst delim s with
    | some (pre, post) => pre :: splitAllAux delim fuel post
    | none => [s]

/-- Split a byte list at every occurrence of a delimiter. -/
def splitAll (delim s : List Nat) : List (List Nat) :=
  splitAllAux delim (s.length + 1) s

/-- ASCII decoding of header bytes back to a string. -/
def asciiOfBytes (bs : List Nat) : String :=
  String.mk (bs.map Char.ofNat)

/-- Extract the quoted value following the first occurrence of a given
attribute marker inside a header block. -/
def extractQuoted (marker : String) (hdr : List Nat) : Option (List Nat) :=
  match splitFirst (utf8Bytes (marker ++ "=\"")) hdr with
  | none => none
  | some (_, rest) => (splitFirst (utf8Bytes "\"") rest).map Prod.fst

/-- A part as recovered by the decoder: a form field or a file. -/
inductive DecodedPart where
  | fieldPart (name : String) (value : List Nat)
  | filePart (name : String) (fileName : String) (body : List Nat)
  deriving DecidableEq, Repr

/-- Decode one part block: split headers from body at the blank line,
read the name attribute, and classify as a file when a filename attribute
is present. -/
def decodePartBlock (block : List Nat) : Option DecodedPart :=
  match splitFirst (utf8Bytes "\r\n\r\n") block with
  | none => none
  | some (hdr, body) =>
    match extractQuoted "name" hdr with
    | none => none
    | some nameBytes =>
      match extractQuoted "filename" hdr with
      | some fileNameBytes =>
        some (DecodedPart.filePart (asciiOfBytes nameBytes)
          (asciiOfBytes fileNameBytes) body)
      | none => some (DecodedPart.fieldPart (asciiOfBytes nameBytes) body)

/-- A standard multipart parser: check the opening dash-boundary line,
cut the stream at every inner part delimiter, strip the closing
delimiter, and decode each part block in order. -/
def decodeMultipart (boundary : String) (stream : List Nat) : Option (List DecodedPart) :=
  let opening := utf8Bytes ("--" ++ boundary ++ "\r\n")
  if opening.isPrefixOf stream then
    let rest := stream.drop opening.length
    let chunks := splitAll (utf8Bytes ("\r\n--" ++ boundary ++ "\r\n")) rest
    match chunks.reverse with
    | [] => none
    | last :: revInit =>
      match splitFirst (utf8Bytes ("\r\n--" ++ boundary ++ "--\r\n")) last with
      | some (lastBlock, trailing) =>
        if trailing = [] then
          (revInit.reverse ++ [lastBlock]).mapM decodePartBlock
        else none
      | none => none
  else none

/-! ## Request builder map sharing (request_builder.go) -/

/-- A heap of Go maps; a map value in Go is a reference, modelled as an
index into the heap. -/
structure MapHeap where
  maps : List (List (String × String))
  deriving DecidableEq, Repr

/-- Dereference a map handle. -/
def heapGet (h : MapHeap) (ref : Nat) : List (String × String) :=
  h.maps.getD ref []

/-- Write through a map handle. -/
def heapSet (h : MapHeap) (ref : Nat) (m : List (String × String)) : MapHeap :=
  { maps := h.maps.set ref m }

/-- Allocate a fresh map (make(map[string]string)). -/
def heapAlloc (h : MapHeap) (m : List (String × String)) : MapHeap × Nat :=
  ({ maps := h.maps ++ [m] }, h.maps.length)

/-- The client fields that matter here: handles to its default
query-parameter and header maps. -/
structure ClientMaps where
  queryParamsRef : Nat
  headersRef : Nat
  deriving DecidableEq, Repr

/-- The request-builder fields that matter here: handles to the maps the
per-request QueryParam and Header methods write into. -/
structure BuilderMaps where
  queryParamsRef : Nat
  headersRef : Nat
  deriving DecidableEq, Repr

/-- NewRequestBuilder from request_builder.go: the builder receives the
client query-parameter map itself (no copy is made), and a freshly
allocated empty header map. -/
def newRequestBuilder (h : MapHeap) (c : ClientMaps) : MapHeap × BuilderMaps :=
  let (h1, freshHeaders) := heapAlloc h []
  (h1, { queryParamsRef := c.queryParamsRef, headersRef := freshHeaders })

/-- RequestBuilder.QueryParam: assign into the builder query map. -/
def builderQueryParam (h : MapHeap) (b : BuilderMaps) (k v : String) : MapHeap :=
  heapSet h b.queryParamsRef (mapInsert (heapGet h b.queryParamsRef) k v)

/-- RequestBuilder.Header: assign into the builder header map. -/
def builderHeader (h : MapHeap) (b : BuilderMaps) (k v : String) : MapHeap :=
  heapSet h b.headersRef (mapInsert (heapGet h b.headersRef) k v)

/-! ## Lemmas and claims about the retry engine -/

theorem finishRetry_resp (a : Option Response) (b : Option GoError) (c : Nat) (s : List Int) :
    (finishRetry a b c s).resp = a := by cases b <;> rfl

theorem finishRetry_attempts (a : Option Response) (b : Option GoError) (c : Nat) (s : List Int) :
    (finishRetry a b c s).attempts = c := by cases b <;> rfl

theorem finishRetry_sleepsMs (a : Option Response) (b : Option GoError) (c : Nat) (s : List Int) :
    (finishRetry a b c s).sleepsMs = s := by cases b <;> rfl

theorem retryAux_const_timeout (mr bo : Int) (fn : Nat → Option Response × Option GoError)
    (hfn : ∀ i, fn i = (none, some GoError.netTimeout)) :
    ∀ (fuel attempt : Nat) (lastR : Option Response) (lastE : Option GoError)
      (acc : Nat) (sleeps : List Int),
      (attempt : Int) + fuel = mr + 1 → (attempt : Int) ≤ mr →
      (executeWithRetryAux mr bo fn fuel attempt lastR lastE acc sleeps).err
          = some (RetryError.attemptErr GoError.netTimeout) ∧
      (executeWithRetryAux mr bo fn fuel attempt lastR lastE acc sleeps).attempts
          = acc + fuel ∧
      (executeWithRetryAux mr bo fn fuel attempt lastR lastE acc sleeps).resp = none := by
  intro fuel
  induction fuel with
  | zero =>
    intro attempt lastR lastE acc sleeps h1 h2
    omega
  | succ f ih =>
    intro attempt lastR lastE acc sleeps h1 h2
    by_cases hm : (attempt : Int) = mr
    · have hf : f = 0 := by omega
      subst hf
      simp [executeWithRetryAux, hfn attempt, h2, hm, shouldRetry, finishRetry]
    · have h2n : ((attempt : Int) + 1) ≤ mr := by omega
      have hrec := ih (attempt + 1) none (some GoError.netTimeout) (acc + 1)
        (sleeps ++ [bo * ((attempt : Int) + 1)]) (by push_cast; omega) (by push_cast; omega)
      simp only [executeWithRetryAux, hfn attempt]
      rw [if_pos h2]
      simp only [shouldRetry, reduceCtorEq, false_and, if_false, if_neg hm]
      simp only [ne_eq, not_true_eq_false, if_false, ite_self]
      have harith : acc + 1 + f = acc + (f + 1) := by omega
      rw [← harith]
      exact hrec

/-- Claim C1: for every retry configuration with MaxRetries = N (N at
least 0) and every attempt function that always fails with a transport
timeout error, executeWithRetry invokes the attempt function exactly N+1
times and returns a failure (a non-nil error). -/
theorem executeWithRetry_always_timeout (n : Nat) (bo : Int)
    (fn : Nat → Option Response × Option GoError)
    (hfn : ∀ i, fn i = (none, some GoError.netTimeout)) :
    (executeWithRetry (n : Int) bo fn).attempts = n + 1 ∧
    (executeWithRetry (n : Int) bo fn).err ≠ none := by
  have hfuel : ((n : Int) + 1).toNat = n + 1 := by omega
  have h := retryAux_const_timeout (n : Int) bo fn hfn (n + 1) 0 none none 0 []
    (by push_cast; omega) (by push_cast; omega)
  unfold executeWithRetry
  rw [hfuel]
  refine ⟨by simpa using h.2.1, ?_⟩
  rw [h.1]
  simp

def exTimeoutFn : Nat → Option Response × Option GoError :=
  fun _ => (none, some GoError.netTimeout)

theorem executeWithRetry_always_timeout_witness :
    (executeWithRetry ((2 : Nat) : Int) 1000 exTimeoutFn).attempts = 2 + 1 ∧
    (executeWithRetry ((2 : Nat) : Int) 1000 exTimeoutFn).err ≠ none :=
  executeWithRetry_always_timeout 2 1000 exTimeoutFn (fun _ => rfl)

theorem retryAux_sleeps (mr bo : Int) (fn : Nat → Option Response × Option GoError) :
    ∀ (fuel attempt : Nat) (lastR : Option Response) (lastE : Option GoError) (acc : Nat),
      ∃ j, (executeWithRetryAux mr bo fn fuel attempt lastR lastE acc
              ((List.range attempt).map (fun i : Nat => bo * ((i : Int) + 1)))).sleepsMs
          = (List.range j).map (fun i : Nat => bo * ((i : Int) + 1)) := by
  intro fuel
  induction fuel with
  | zero =>
    intro attempt lastR lastE acc
    exact ⟨attempt, by simp [executeWithRetryAux, finishRetry_sleepsMs]⟩
  | succ f ih =>
    intro attempt lastR lastE acc
    simp only [executeWithRetryAux]
    by_cases hle : (attempt : Int) ≤ mr
    · rw [if_pos hle]
      by_cases hsucc : (fn attempt).2 = none ∧ shouldRetry none (respStatus (fn attempt).1) = false
      · rw [if_pos hsucc]
        exact ⟨attempt, rfl⟩
      · rw [if_neg hsucc]
        by_cases hm : (attempt : Int) = mr
        · rw [if_pos hm]
          exact ⟨attempt, by rw [finishRetry_sleepsMs]⟩
        · rw [if_neg hm]
          by_cases hsr : (if (fn attempt).1 ≠ none then
              shouldRetry (fn attempt).2 0 || shouldRetry none (respStatus (fn attempt).1)
              else shouldRetry (fn attempt).2 0) = false
          · rw [if_pos hsr]
            exact ⟨attempt, by rw [finishRetry_sleepsMs]⟩
          · rw [if_neg hsr]
            have hext : (List.range attempt).map (fun i : Nat => bo * ((i : Int) + 1))
                ++ [bo * ((attempt : Int) + 1)]
                = (List.range (attempt + 1)).map (fun i : Nat => bo * ((i : Int) + 1)) := by
              rw [List.range_succ, List.map_append]
              rfl
            rw [hext]
            exact ih (attempt + 1) (fn attempt).1 (fn attempt).2 (acc + 1)
    · rw [if_neg hle]
      exact ⟨attempt, by rw [finishRetry_sleepsMs]⟩

/-- Claim C4: for every base backoff duration b and every attempt index i
at least 0, the delay slept before the next retry equals b times (i+1);
for b = 1000ms and an always-retrying attempt the delays after attempts
0, 1, 2 are 1000ms, 2000ms, 3000ms. -/
theorem executeWithRetry_backoff_linear :
    (∀ (mr bo : Int) (fn : Nat → Option Response × Option GoError) (i : Nat)
        (h : i < (executeWithRetry mr bo fn).sleepsMs.length),
      (executeWithRetry mr bo fn).sleepsMs.get ⟨i, h⟩ = bo * ((i : Int) + 1)) ∧
    (executeWithRetry ((3 : Nat) : Int) 1000 exTimeoutFn).sleepsMs
      = [1000, 2000, 3000] := by
  constructor
  · intro mr bo fn i h
    obtain ⟨j, hj⟩ :
        ∃ j, (executeWithRetry mr bo fn).sleepsMs
          = (List.range j).map (fun i : Nat => bo * ((i : Int) + 1)) := by
      simpa using retryAux_sleeps mr bo fn ((mr + 1).toNat) 0 none none 0
    rw [List.get_of_eq hj]
    simp
  · decide

theorem executeWithRetry_backoff_linear_witness :
    (executeWithRetry ((3 : Nat) : Int) 1000 exTimeoutFn).sleepsMs.get
        ⟨1, by decide⟩ = 1000 * ((1 : Int) + 1) :=
  executeWithRetry_backoff_linear.1 ((3 : Nat) : Int) 1000 exTimeoutFn 1 (by decide)

/-- Claim C2: shouldRetry returns true on a transport error exactly when
that error is a timeout or a DNS resolution failure, and, for a completed
response, returns true exactly when the status code is at least 500 or
equal to 429; in particular a 404 response is returned immediately on
attempt 0 without any retry. -/
theorem shouldRetry_classification :
    (∀ (e : GoError) (s : Nat),
        shouldRetry (some e) s = true ↔ (e = GoError.netTimeout ∨ e = GoError.dns)) ∧
    (∀ s : Nat, shouldRetry none s = true ↔ (500 ≤ s ∨ s = 429)) ∧
    (∀ (mr bo : Int) (fn : Nat → Option Response × Option GoError) (r : Response),
        0 ≤ mr → fn 0 = (some r, none) → r.status = 404 →
        executeWithRetry mr bo fn
          = { resp := some r, err := none, attempts := 1, sleepsMs := [] }) := by
  refine ⟨?_, ?_, ?_⟩
  · intro e s
    cases e <;> simp [shouldRetry]
  · intro s
    simp [shouldRetry]
  · intro mr bo fn r hmr hfn hst
    obtain ⟨k, hk⟩ : ∃ k, (mr + 1).toNat = k + 1 := ⟨(mr + 1).toNat - 1, by omega⟩
    unfold executeWithRetry
    rw [hk]
    simp only [executeWithRetryAux, hfn]
    rw [if_pos (by push_cast; omega : ((0 : Nat) : Int) ≤ mr)]
    simp [shouldRetry, respStatus, hst]

def ex404Fn : Nat → Option Response × Option GoError :=
  fun _ => (some { status := 404 }, none)

theorem shouldRetry_classification_witness :
    executeWithRetry (3 : Int) 1000 ex404Fn
      = { resp := some { status := 404 }, err := none, attempts := 1, sleepsMs := [] } :=
  shouldRetry_classification.2.2 3 1000 ex404Fn { status := 404 } (by decide) rfl rfl

theorem finishRetry_err_some (a : Option Response) (e : GoError) (c : Nat) (s : List Int) :
    (finishRetry a (some e) c s).err = some (RetryError.attemptErr e) := rfl

theorem finishRetry_err_none (a : Option Response) (c : Nat) (s : List Int) :
    (finishRetry a none c s).err = some RetryError.maxRetriesExceeded := rfl

theorem retryAux_exhaust_iff (n : Nat) (bo : Int) (fn : Nat → Option Response × Option GoError)
    (hfn : ∀ i, (fn i).2 = none → (fn i).1 ≠ none) :
    ∀ (fuel attempt : Nat) (lastR : Option Response) (lastE : Option GoError)
      (acc : Nat) (sleeps : List Int),
      attempt + fuel = n + 1 → attempt ≤ n →
      ((executeWithRetryAux (n : Int) bo fn fuel attempt lastR lastE acc sleeps).err
          = some RetryError.maxRetriesExceeded
        ↔ ((executeWithRetryAux (n : Int) bo fn fuel attempt lastR lastE acc sleeps).attempts
              = acc + fuel
            ∧ (fn n).2 = none
            ∧ shouldRetry none (respStatus (fn n).1) = true)) := by
  intro fuel
  induction fuel with
  | zero =>
    intro attempt lastR lastE acc sleeps h1 h2
    omega
  | succ f ih =>
    intro attempt lastR lastE acc sleeps h1 h2
    have hle : ((attempt : Nat) : Int) ≤ (n : Int) := by omega
    simp only [executeWithRetryAux]
    rw [if_pos hle]
    by_cases hsucc : (fn attempt).2 = none ∧ shouldRetry none (respStatus (fn attempt).1) = false
    · rw [if_pos hsucc]
      constructor
      · intro hcontra
        exact absurd hcontra (by simp)
      · rintro ⟨ha, hb, hc⟩
        have hf0 : f = 0 := by simpa using ha
        have han : attempt = n := by omega
        rw [← han] at hc
        rw [hsucc.2] at hc
        exact absurd hc (by simp)
    · rw [if_neg hsucc]
      by_cases hm : ((attempt : Nat) : Int) = (n : Int)
      · rw [if_pos hm]
        have han : attempt = n := by exact_mod_cast hm
        have hf0 : f = 0 := by omega
        subst hf0
        subst han
        cases herr : (fn attempt).2 with
        | some e =>
          rw [finishRetry_err_some]
          constructor
          · intro hx
            exact absurd hx (by simp)
          · rintro ⟨_, hb, _⟩
            exact absurd hb (by simp)
        | none =>
          rw [finishRetry_err_none]
          have hretry : shouldRetry none (respStatus (fn attempt).1) = true := by
            rcases Bool.eq_false_or_eq_true (shouldRetry none (respStatus (fn attempt).1)) with hh | hh
            · exact hh
            · exact absurd ⟨herr, hh⟩ hsucc
          constructor
          · intro _
            refine ⟨?_, rfl, hretry⟩
            rw [finishRetry_attempts]
          · intro _
            rfl
      · rw [if_neg hm]
        have hlt : attempt < n := by
          have : attempt ≠ n := by
            intro hx
            exact hm (by exact_mod_cast congrArg Nat.cast hx)
          omega
        by_cases hsr : (if (fn attempt).1 ≠ none then
            shouldRetry (fn attempt).2 0 || shouldRetry none (respStatus (fn attempt).1)
            else shouldRetry (fn attempt).2 0) = false
        · rw [if_pos hsr]
          cases herr : (fn attempt).2 with
          | some e =>
            rw [finishRetry_err_some]
            constructor
            · intro hx
              exact absurd hx (by simp)
            · rintro ⟨ha, _, _⟩
              rw [finishRetry_attempts] at ha
              omega
          | none =>
            exfalso
            have hresp : (fn attempt).1 ≠ none := hfn attempt herr
            rw [if_pos hresp, herr] at hsr
            have hretry : shouldRetry none (respStatus (fn attempt).1) = true := by
              rcases Bool.eq_false_or_eq_true (shouldRetry none (respStatus (fn attempt).1)) with hh | hh
              · exact hh
              · exact absurd ⟨herr, hh⟩ hsucc
            rw [hretry] at hsr
            simp [shouldRetry] at hsr
        · rw [if_neg hsr]
          have harith : acc + 1 + f = acc + (f + 1) := by omega
          have hrec := ih (attempt + 1) (fn attempt).1 (fn attempt).2 (acc + 1)
            (sleeps ++ [bo * ((attempt : Int) + 1)]) (by omega) (by omega)
          rw [harith] at hrec
          exact hrec

/-- Claim C3: for every MaxRetries greater than 0, if the first attempt
fails with a non-retryable transport error, executeWithRetry returns that
specific error (not ErrMaxRetriesExceeded); and executeWithRetry returns
ErrMaxRetriesExceeded exactly when the retry budget is exhausted and the
final attempt produced a retryable response with no transport error. -/
theorem executeWithRetry_error_surfacing (n : Nat) (bo : Int)
    (fn : Nat → Option Response × Option GoError)
    (hfn : ∀ i, (fn i).2 = none → (fn i).1 ≠ none) :
    (∀ e : GoError, 0 < n → shouldRetry (some e) 0 = false → fn 0 = (none, some e) →
        executeWithRetry (n : Int) bo fn
          = { resp := none, err := some (RetryError.attemptErr e),
              attempts := 1, sleepsMs := [] }) ∧
    ((executeWithRetry (n : Int) bo fn).err = some RetryError.maxRetriesExceeded
      ↔ ((executeWithRetry (n : Int) bo fn).attempts = n + 1
          ∧ (fn n).2 = none
          ∧ shouldRetry none (respStatus (fn n).1) = true)) := by
  constructor
  · intro e hn hsr hfn0
    have hfuel : ((n : Int) + 1).toNat = n + 1 := by omega
    unfold executeWithRetry
    rw [hfuel]
    simp only [executeWithRetryAux, hfn0]
    rw [if_pos (by omega : (((0 : Nat)) : Int) ≤ (n : Int))]
    have h0n : ¬ (((0 : Nat)) : Int) = (n : Int) := by omega
    simp [h0n, hsr, finishRetry]
  · have hfuel : ((n : Int) + 1).toNat = n + 1 := by omega
    have h := retryAux_exhaust_iff n bo fn hfn (n + 1) 0 none none 0 [] (by omega) (by omega)
    unfold executeWithRetry
    rw [hfuel]
    simpa using h

def exOtherErrFn : Nat → Option Response × Option GoError :=
  fun _ => (none, some GoError.otherNet)

theorem executeWithRetry_error_surfacing_witness :
    executeWithRetry ((2 : Nat) : Int) 7 exOtherErrFn
      = { resp := none, err := some (RetryError.attemptErr GoError.otherNet),
          attempts := 1, sleepsMs := [] } :=
  (executeWithRetry_error_surfacing 2 7 exOtherErrFn
      (fun i h => by simp [exOtherErrFn] at h)).1
    GoError.otherNet (by omega) (by decide) rfl

/-! ## Lemmas and claims about the OAuth1 parameter handling -/

theorem map_fst_orderedInsert (x : String × String) :
    ∀ l : List (String × String),
      (List.orderedInsert keyLeGo x l).map Prod.fst
        = List.orderedInsert stringLeGo x.1 (l.map Prod.fst)
  | [] => rfl
  | b :: t => by
    by_cases h : stringLeGo x.1 b.1
    · have h2 : keyLeGo x b := h
      simp [List.orderedInsert, h2, h]
    · have h2 : ¬ keyLeGo x b := h
      simp [List.orderedInsert, h2, h, map_fst_orderedInsert x t]

theorem map_fst_insertionSort :
    ∀ l : List (String × String),
      (List.insertionSort keyLeGo l).map Prod.fst
        = List.insertionSort stringLeGo (l.map Prod.fst)
  | [] => rfl
  | a :: t => by
    rw [List.insertionSort, List.map_cons, List.insertionSort,
      ← map_fst_insertionSort t, map_fst_orderedInsert]

theorem find?_eq_of_nodup_mem (k v : String) :
    ∀ l : List (String × String),
      (l.map Prod.fst).Nodup → (k, v) ∈ l →
      l.find? (fun p => p.1 == k) = some (k, v)
  | [], _, hm => absurd hm (List.not_mem_nil _)
  | (k1, v1) :: t, hnd, hm => by
    rcases List.mem_cons.1 hm with heq | hmem
    · rw [← heq]
      apply List.find?_cons_of_pos
      simp
    · have hk1 : k1 ≠ k := by
        intro hx
        subst hx
        have : k1 ∈ t.map Prod.fst := by
          exact List.mem_map.2 ⟨(k1, v), hmem, rfl⟩
        exact (List.nodup_cons.1 hnd).1 this
      rw [List.find?_cons_of_neg]
      · exact find?_eq_of_nodup_mem k v t (List.nodup_cons.1 hnd).2 hmem
      · simp [hk1]

theorem lookupParamD_of_mem (l : List (String × String)) (k v : String)
    (hnd : (l.map Prod.fst).Nodup) (hm : (k, v) ∈ l) :
    lookupParamD l k = v := by
  unfold lookupParamD lookupParam
  rw [find?_eq_of_nodup_mem k v l hnd hm]
  rfl

/-- Claim C5, counterexample: the code does not sort the key=value pairs
by their percent-encoded string form. With keys containing a space and an
exclamation mark, sorting the raw keys (what the code does) and sorting
the encoded pairs (what the claim states) give different parameter
strings. -/
theorem paramString_spec_sort_counterexample :
    paramString [("a b", "1"), ("a!", "2")]
      ≠ paramStringSpec [("a b", "1"), ("a!", "2")] := by decide

/-- Claim C5, amended: for every merged parameter set with distinct keys,
the OAuth1 parameter string consists of the percent-encoded key=value
pairs sorted lexicographically by the RAW key (Go byte order), joined
with ampersands. -/
theorem paramString_sorted_by_raw_key (l : List (String × String))
    (hl : (l.map Prod.fst).Nodup) :
    paramString l
      = String.intercalate "&"
          ((List.insertionSort keyLeGo l).map
            (fun p => queryEscape p.1 ++ "=" ++ queryEscape p.2)) := by
  unfold paramString
  simp only [← map_fst_insertionSort, List.map_map]
  congr 1
  apply List.map_congr_left
  intro p hp
  have hpl : p ∈ l := (List.perm_insertionSort keyLeGo l).mem_iff.1 hp
  have hlook : lookupParamD l p.1 = p.2 :=
    lookupParamD_of_mem l p.1 p.2 hl hpl
  simp [Function.comp, hlook]

def exC5 : List (String × String) := [("a b", "1"), ("a!", "2")]

theorem paramString_sorted_by_raw_key_witness :
    (exC5.map Prod.fst).Nodup ∧
    paramString exC5
      = String.intercalate "&"
          ((List.insertionSort keyLeGo exC5).map
            (fun p => queryEscape p.1 ++ "=" ++ queryEscape p.2)) :=
  ⟨by decide, paramString_sorted_by_raw_key exC5 (by decide)⟩

theorem find?_mapOverwrite_self (k v : String) :
    ∀ m : List (String × String),
      m.any (fun p => p.1 == k) = true →
      (m.map (fun p => if p.1 == k then (k, v) else p)).find? (fun p => p.1 == k)
        = some (k, v)
  | [], h => by simp at h
  | p :: t, h => by
    by_cases hp : p.1 == k
    · simp only [List.map_cons, if_pos hp]
      exact List.find?_cons_of_pos _ (by simp)
    · have ht : t.any (fun q => q.1 == k) = true := by
        rcases List.any_eq_true.1 h with ⟨q, hq, hqk⟩
        rcases List.mem_cons.1 hq with rfl | hqt
        · exact absurd hqk (by simpa using hp)
        · exact List.any_eq_true.2 ⟨q, hqt, hqk⟩
      simp only [List.map_cons, if_neg hp]
      rw [List.find?_cons_of_neg _ (by simpa using hp)]
      exact find?_mapOverwrite_self k v t ht

theorem find?_mapOverwrite_other (k k' v' : String) (hne : (k' == k) = false) :
    ∀ m : List (String × String),
      (m.map (fun p => if p.1 == k' then (k', v') else p)).find? (fun p => p.1 == k)
        = m.find? (fun p => p.1 == k)
  | [] => rfl
  | p :: t => by
    by_cases hp : p.1 == k'
    · have hpk : (p.1 == k) = false := by
        have hpe : p.1 = k' := by simpa using hp
        rw [hpe]
        exact hne
      simp only [List.map_cons, if_pos hp]
      rw [List.find?_cons_of_neg _ (by simp [hne]),
        List.find?_cons_of_neg _ (by simp [hpk])]
      exact find?_mapOverwrite_other k k' v' hne t
    · simp only [List.map_cons, if_neg hp]
      by_cases hpk : p.1 == k
      · rw [List.find?_cons_of_pos _ (by simpa using hpk),
          List.find?_cons_of_pos _ (by simpa using hpk)]
      · rw [List.find?_cons_of_neg _ (by simpa using hpk),
          List.find?_cons_of_neg _ (by simpa using hpk)]
        exact find?_mapOverwrite_other k k' v' hne t

theorem lookupParam_mapInsert_self (m : List (String × String)) (k v : String) :
    lookupParam (mapInsert m k v) k = some v := by
  unfold mapInsert
  by_cases h : m.any (fun p => p.1 == k)
  · rw [if_pos h]
    unfold lookupParam
    rw [find?_mapOverwrite_self k v m h]
    rfl
  · rw [if_neg h]
    unfold lookupParam
    rw [List.find?_append]
    have hm : m.find? (fun p => p.1 == k) = none :=
      List.find?_eq_none.2 (List.any_eq_false.1 (Bool.of_not_eq_true h))
    rw [hm]
    simp

theorem lookupParam_mapInsert_other (m : List (String × String)) (k k' v' : String)
    (hne : k' ≠ k) :
    lookupParam (mapInsert m k' v') k = lookupParam m k := by
  have hneb : (k' == k) = false := by simpa using hne
  unfold mapInsert
  by_cases h : m.any (fun p => p.1 == k')
  · rw [if_pos h]
    unfold lookupParam
    rw [find?_mapOverwrite_other k k' v' hneb m]
  · rw [if_neg h]
    unfold lookupParam
    rw [List.find?_append]
    have htail : ([(k', v')] : List (String × String)).find? (fun p => p.1 == k) = none := by
      simp [hneb]
    rw [htail]
    cases m.find? (fun p => p.1 == k) <;> rfl

theorem lookupParam_mergeParams_not_mem (k : String) :
    ∀ (extra base : List (String × String)),
      k ∉ extra.map Prod.fst →
      lookupParam (mergeParams base extra) k = lookupParam base k
  | [], _, _ => rfl
  | (k1, v1) :: t, base, h => by
    have hk1 : k1 ≠ k := by
      intro hx
      exact h (by simp [hx])
    have ht : k ∉ t.map Prod.fst := by
      intro hx
      exact h (by simp [hx])
    unfold mergeParams
    rw [List.foldl_cons]
    have hrec := lookupParam_mergeParams_not_mem k t (mapInsert base k1 v1) ht
    unfold mergeParams at hrec
    rw [hrec]
    exact lookupParam_mapInsert_other base k k1 v1 hk1

theorem lookupParam_mergeParams_mem (k v : String) :
    ∀ (extra base : List (String × String)),
      (extra.map Prod.fst).Nodup → (k, v) ∈ extra →
      lookupParam (mergeParams base extra) k = some v
  | [], _, _, hm => absurd hm (List.not_mem_nil _)
  | (k1, v1) :: t, base, hnd, hm => by
    unfold mergeParams
    rw [List.foldl_cons]
    rcases List.mem_cons.1 hm with heq | hmem
    · have hk : k = k1 := congrArg Prod.fst heq
      have hv : v = v1 := congrArg Prod.snd heq
      subst hk
      subst hv
      have hnotin : k ∉ t.map Prod.fst := by
        rw [List.map_cons] at hnd
        exact (List.nodup_cons.1 hnd).1
      have hrec := lookupParam_mergeParams_not_mem k t (mapInsert base k v) hnotin
      unfold mergeParams at hrec
      rw [hrec]
      exact lookupParam_mapInsert_self base k v
    · have hndt : (t.map Prod.fst).Nodup := by
        rw [List.map_cons] at hnd
        exact (List.nodup_cons.1 hnd).2
      have hrec := lookupParam_mergeParams_mem k v t (mapInsert base k1 v1) hndt hmem
      unfold mergeParams at hrec
      exact hrec

/-- Claim C7: in OAuth1 base-string construction, when a URL query
parameter has the same key as one of the six oauth parameters, the merged
parameter set contains the query parameter value, replacing the oauth
value. -/
theorem oauth1_query_param_overrides_oauth (oauth : OAuth1Config)
    (nonce timestamp : String) (u : ParsedURL) (k v : String)
    (hq : (u.query.map Prod.fst).Nodup) (hkv : (k, v) ∈ u.query) :
    lookupParam (mergeParams (oauthParamList oauth nonce timestamp) u.query) k
      = some v :=
  lookupParam_mergeParams_mem k v u.query (oauthParamList oauth nonce timestamp) hq hkv

def exURL : ParsedURL :=
  { scheme := "https", host := "api.example.com", path := "/r",
    query := [("oauth_nonce", "evil")] }

theorem oauth1_query_param_overrides_oauth_witness :
    lookupParam
      (mergeParams (oauthParamList ⟨"ck", "cs", "at", "as"⟩ "abc" "123") exURL.query)
      "oauth_nonce" = some "evil" :=
  oauth1_query_param_overrides_oauth ⟨"ck", "cs", "at", "as"⟩ "abc" "123" exURL
    "oauth_nonce" "evil" (by decide) (by decide)

/-! ## Claims about signing determinism, map sharing, and file-entry priority -/

/-- Claim C9: for every fixed nonce, timestamp, credentials, URL and
method, two runs of the OAuth1 signature computation produce an identical
signature byte sequence; the computation is deterministic once the
entropy inputs are fixed. -/
theorem generateOAuth1Signature_deterministic
    (hmacSha1 : List Nat → List Nat → List Nat)
    (c1 c2 : OAuth1Config) (m1 m2 : String) (u1 u2 : ParsedURL)
    (nonce1 nonce2 ts1 ts2 : String)
    (hc : c1 = c2) (hm : m1 = m2) (hu : u1 = u2)
    (hn : nonce1 = nonce2) (ht : ts1 = ts2) :
    generateOAuth1Signature hmacSha1 c1 m1 u1 (oauthParamList c1 nonce1 ts1)
      = generateOAuth1Signature hmacSha1 c2 m2 u2 (oauthParamList c2 nonce2 ts2) := by
  subst hc
  subst hm
  subst hu
  subst hn
  subst ht
  rfl

/-- Stand-in for the external HMAC-SHA1 primitive, used only to
instantiate the determinism theorem at a concrete input. -/
def hmacStub : List Nat → List Nat → List Nat :=
  fun key msg => key ++ msg

def exOAuthCfg : OAuth1Config :=
  { consumerKey := "ck", consumerSecret := "cs",
    accessToken := "at", accessTokenSecret := "as" }

def exSignURL : ParsedURL :=
  { scheme := "https", host := "api.example.com", path := "/v1/items",
    query := [("q", "x")] }

theorem generateOAuth1Signature_deterministic_witness :
    generateOAuth1Signature hmacStub exOAuthCfg "GET" exSignURL
        (oauthParamList exOAuthCfg "nonce0" "1700000000")
      = generateOAuth1Signature hmacStub exOAuthCfg "GET" exSignURL
        (oauthParamList exOAuthCfg "nonce0" "1700000000") :=
  generateOAuth1Signature_deterministic hmacStub exOAuthCfg exOAuthCfg "GET" "GET"
    exSignURL exSignURL "nonce0" "nonce0" "1700000000" "1700000000" rfl rfl rfl rfl rfl

def demoHeap : MapHeap := { maps := [[], []] }

def demoClientMaps : ClientMaps := { queryParamsRef := 0, headersRef := 1 }

/-- Claim C6: the claim states that per-request QueryParam and Header
calls never mutate the client-level default maps. The code contradicts
this for the query map: NewRequestBuilder hands the builder the client
query-parameter map itself, so a per-request QueryParam writes into the
client map shared across requests, while the header map is freshly
allocated and the client headers stay untouched. This theorem evaluates
the model at the failing input. -/
theorem newRequestBuilder_aliases_client_query_map :
    (newRequestBuilder demoHeap demoClientMaps).2.queryParamsRef
        = demoClientMaps.queryParamsRef ∧
    heapGet demoHeap demoClientMaps.queryParamsRef = [] ∧
    heapGet
      (builderQueryParam (newRequestBuilder demoHeap demoClientMaps).1
        (newRequestBuilder demoHeap demoClientMaps).2 "k" "2")
      demoClientMaps.queryParamsRef = [("k", "2")] ∧
    heapGet
      (builderHeader (newRequestBuilder demoHeap demoClientMaps).1
        (newRequestBuilder demoHeap demoClientMaps).2 "X-Request-ID" "abc123")
      demoClientMaps.headersRef = [] := by
  decide

/-- Claim C10: for every multipart file entry in which both the
in-memory data buffer and the reader stream are non-nil, the encoder
copies from the reader and silently ignores the data buffer: the encoded
stream is identical to the one for the same entry without the buffer. -/
theorem buildMultipartForm_reader_wins (boundary : String)
    (fs : List FormField) (name fileName : String) (d r : List Nat) :
    buildMultipartForm boundary
        { fields := fs,
          files := [{ fieldName := name, fileName := fileName,
                      data := some d, reader := some r }] }
      = buildMultipartForm boundary
        { fields := fs,
          files := [{ fieldName := name, fileName := fileName,
                      data := none, reader := some r }] } ∧
    fileBody { fieldName := name, fileName := fileName,
               data := some d, reader := some r } = r :=
  ⟨rfl, rfl⟩

/-! ## Lemmas and claims about the multipart encoder -/

theorem utf8Bytes_append (s t : String) :
    utf8Bytes (s ++ t) = utf8Bytes s ++ utf8Bytes t := by
  unfold utf8Bytes
  rw [String.data_append]
  exact List.flatMap_append _ _ _

theorem crlf_prefix_block (b : String) :
    utf8Bytes ("\r\n--" ++ b ++ "\r\n") = [13, 10] ++ utf8Bytes ("--" ++ b ++ "\r\n") := by
  have h1 : ("\r\n--" : String) = "\r\n" ++ "--" := by decide
  rw [h1, String.append_assoc "\r\n" "--" b, String.append_assoc "\r\n" ("--" ++ b) "\r\n",
    utf8Bytes_append]
  rfl

theorem foldl_fields_out (boundary : String) :
    ∀ (fs : List FormField) (w : MWriter),
      fs.foldl (fun w f => wWrite (utf8Bytes f.value)
          (wCreatePart boundary [contentDispositionField f.name] w)) w
        = { out := w.out ++ glueBlocks w.hasLast (fs.map (fieldBlock boundary)),
            hasLast := w.hasLast || !fs.isEmpty }
  | [], w => by simp [glueBlocks]
  | f :: t, w => by
    rw [List.foldl_cons, foldl_fields_out boundary t]
    cases hwl : w.hasLast <;>
      simp [wWrite, wCreatePart, glueBlocks, hwl, crlf_prefix_block, fieldBlock,
        List.append_assoc]

theorem foldl_files_out (boundary : String) :
    ∀ (fs : List FormFile) (w : MWriter),
      fs.foldl (fun w f => wWrite (fileBody f)
          (wCreatePart boundary
            [contentDispositionFile f.fieldName f.fileName,
             "Content-Type: application/octet-stream"] w)) w
        = { out := w.out ++ glueBlocks w.hasLast (fs.map (fileBlock boundary)),
            hasLast := w.hasLast || !fs.isEmpty }
  | [], w => by simp [glueBlocks]
  | f :: t, w => by
    rw [List.foldl_cons, foldl_files_out boundary t]
    cases hwl : w.hasLast <;>
      simp [wWrite, wCreatePart, glueBlocks, hwl, crlf_prefix_block, fileBlock,
        List.append_assoc]

theorem glueBlocks_append (a : Bool) :
    ∀ xs ys : List (List Nat),
      glueBlocks a (xs ++ ys) = glueBlocks a xs ++ glueBlocks (a || !xs.isEmpty) ys
  | [], ys => by simp [glueBlocks]
  | x :: t, ys => by
    simp [glueBlocks, glueBlocks_append true t ys, List.append_assoc]

def fdHello : MultipartFormData :=
  { fields := [{ name := "a", value := "1" }],
    files := [{ fieldName := "f", fileName := "f",
                data := some (utf8Bytes "hello"), reader := none }] }

set_option maxRecDepth 400000 in
/-- Claim C8: for every multipart plan, the encoded stream consists of
all field parts followed by all file parts, each category in insertion
order (first conjunct); and encoding the plan with field a=1 and one file
f with content hello, then decoding the stream with a standard multipart
parser, recovers field a then file f with body hello, in that order
(second conjunct). -/
theorem buildMultipartForm_order_roundtrip :
    (∀ (boundary : String) (fd : MultipartFormData),
        buildMultipartForm boundary fd
          = glueBlocks false
              (fd.fields.map (fieldBlock boundary) ++ fd.files.map (fileBlock boundary))
            ++ utf8Bytes ("\r\n--" ++ boundary ++ "--\r\n")) ∧
    decodeMultipart "BOUNDARY123" (buildMultipartForm "BOUNDARY123" fdHello)
      = some [DecodedPart.fieldPart "a" (utf8Bytes "1"),
              DecodedPart.filePart "f" "f" (utf8Bytes "hello")] := by
  constructor
  · intro boundary fd
    simp only [buildMultipartForm]
    rw [foldl_fields_out boundary fd.fields, foldl_files_out boundary fd.files,
      glueBlocks_append]
    have hie : (fd.fields.map (fieldBlock boundary)).isEmpty = fd.fields.isEmpty := by
      cases fd.fields <;> rfl
    simp [wClose, hie, List.append_assoc]
  · decide
